import Mathlib

/-!
Verification development for the xiaozhi-server-rs voice-interaction server.

The definitions below are a shallow embedding of the per-session real-time
interaction engine of the repository:

* `src/handlers/websocket.rs` — the session WebSocket handler: the turn
  processor (`process_text_logic`), the standby synthesizer path
  (`trigger_tts_only`), the outbound helpers (`send_nowait`), and the central
  session loop (`handle_socket_inner`).
* `src/services/stt/sensevoice.rs` — the recognition bridge re-chunking
  helper (`chunk_stream`).
* `src/services/mcp.rs` — the JSON-RPC envelope types and `create_request`.

Rust `serde_json::Value` is embedded as the inductive `JValue`; machine
integers that can never overflow in the modelled paths (`i64` RPC ids,
millisecond clocks) are embedded as `Int`/`Nat`.  Time is modelled in
milliseconds: only `tokio::time::sleep` advances the clock, and the cost of
each awaited send is an arbitrary parameter.  Sends on the outbound queue are
recorded in the order the code hands them to the queue.
-/

namespace Xiaozhi

/-- Embedding of `serde_json::Value`. -/
inductive JValue where
  | null
  | bool (b : Bool)
  | num (n : Int)
  | str (s : String)
  | arr (elems : List JValue)
  | obj (fields : List (String × JValue))
deriving Repr

/-- Embedding of `Value::get(key)`: field lookup on an object, `none` on other variants. -/
def JValue.getField (v : JValue) (key : String) : Option JValue :=
  match v with
  | .obj fields => (fields.find? (fun p => p.1 = key)).map Prod.snd
  | _ => none

/-- Embedding of `Value::as_bool`. -/
def JValue.asBool : JValue → Option Bool
  | .bool b => some b
  | _ => none

/-- Embedding of `Value::as_i64` (all embedded numbers are in the `i64` role). -/
def JValue.asI64 : JValue → Option Int
  | .num n => some n
  | _ => none

/-- Embedding of `Value::as_str`. -/
def JValue.asStr : JValue → Option String
  | .str s => some s
  | _ => none

/-- Embedding of `Value::as_array`. -/
def JValue.asArray : JValue → Option (List JValue)
  | .arr xs => some xs
  | _ => none

/-! ## Recognition Bridge re-chunking (`src/services/stt/sensevoice.rs`, `chunk_stream`)

`chunk_stream` buffers incoming PCM sample vectors and re-emits vectors of
exactly `chunk_size` samples; on termination a non-empty leftover buffer is
resized (zero-padded) to `chunk_size` and emitted as a final chunk.  The
stream is embedded as the list of vectors it yields. -/

/-- Embedding of `Vec::resize(n, 0)`: truncate to `n` or pad with zeros up to `n`. -/
def vecResize (xs : List Int) (n : Nat) : List Int :=
  xs.take n ++ List.replicate (n - xs.length) 0

/-- Embedding of the inner `while buffer.len() >= chunk_size` drain loop of
`chunk_stream`: repeatedly split off a prefix of `chunk_size` samples,
returning the emitted chunks and the remaining buffer. -/
def drainChunks (chunk_size : Nat) (buffer : List Int) : List (List Int) × List Int :=
  if _h : 0 < chunk_size ∧ chunk_size ≤ buffer.length then
    match drainChunks chunk_size (buffer.drop chunk_size) with
    | (chunks, rest) => (buffer.take chunk_size :: chunks, rest)
  else ([], buffer)
termination_by buffer.length
decreasing_by
  simp only [List.length_drop]
  omega

/-- Body of the `while let Some(chunk) = input.next()` loop of `chunk_stream`:
extend the buffer with the arriving vector and drain the full chunks. -/
def chunkStep (chunk_size : Nat) (acc : List (List Int) × List Int)
    (chunk : List Int) : List (List Int) × List Int :=
  match drainChunks chunk_size (acc.2 ++ chunk) with
  | (newChunks, rest) => (acc.1 ++ newChunks, rest)

/-- Embedding of `chunk_stream`: fold the incoming vectors through the buffer,
draining full chunks after each arrival, and zero-pad a non-empty tail when
the input ends. -/
def chunk_stream (chunk_size : Nat) (input : List (List Int)) : List (List Int) :=
  match input.foldl (chunkStep chunk_size) ([], []) with
  | (out, buffer) => if buffer.isEmpty then out else out ++ [vecResize buffer chunk_size]

/-! ## Wire messages and turn processing (`src/handlers/websocket.rs`) -/

/-- Embedding of `AudioParamsResponse`. -/
structure AudioParamsResponse where
  sample_rate : Nat
  frame_duration : Nat
deriving Repr, DecidableEq

/-- Embedding of `AudioParams` (the client hello's audio parameters). -/
structure AudioParams where
  format : String
  sample_rate : Nat
  channels : Nat
  frame_duration : Nat
deriving Repr, DecidableEq

/-- Embedding of `JsonRpcRequest` from `src/services/mcp.rs`. -/
structure JsonRpcRequest where
  jsonrpc : String
  method : String
  params : Option JValue
  id : Option JValue
deriving Repr

/-- Embedding of `create_request` from `src/services/mcp.rs`. -/
def create_request (method : String) (params : Option JValue) (id : Option JValue) :
    JsonRpcRequest :=
  { jsonrpc := "2.0", method := method, params := params, id := id }

/-- Embedding of `ServerMessage` (outbound JSON messages). -/
inductive ServerMessage where
  | Hello (transport : String) (audio_params : Option AudioParamsResponse)
  | Stt (text : String)
  | Tts (state : String) (text : Option String)
  | Llm (emotion : Option String) (text : Option String)
  | Mcp (payload : JsonRpcRequest) (session_id : Option String)
deriving Repr

/-- One item handed to the outbound writer queue (`axum` WebSocket `Message`).
Text messages carry the `ServerMessage` they serialize; binary messages carry
the Opus frame bytes. -/
inductive OutMessage where
  | text (m : ServerMessage)
  | binary (frame : List Nat)
  | pong
  | close
deriving Repr

/-- Opus frame bytes as produced by `TtsTrait::speak`. -/
abbrev Frame := List Nat

/-- Embedding of `crate::traits::ToolFunction`. -/
structure ToolFunction where
  name : String
  arguments : String
deriving Repr, DecidableEq

/-- Embedding of `crate::traits::ToolCall`. -/
structure ToolCall where
  id : String
  type_ : String
  function : ToolFunction
deriving Repr, DecidableEq

/-- Embedding of `crate::traits::Message` (chat history entries). -/
structure ChatMsg where
  role : String
  content : String
  tool_calls : List ToolCall
  tool_call_id : Option String
deriving Repr, DecidableEq

/-- Embedding of `crate::traits::ToolDefinition`. -/
structure ToolDefinition where
  name : String
  description : String
  parameters : JValue
deriving Repr

/-- Embedding of `crate::traits::ChatResponse`. -/
inductive ChatResponse where
  | Text (s : String)
  | ToolCall (calls : List ToolCall)
deriving Repr

/-- Embedding of `crate::traits::SttEvent`. -/
inductive SttEvent where
  | Text (s : String)
  | NoSpeech
deriving Repr, DecidableEq

/-! Rust `str` operations used by the handler, embedded over the character
list of the string so that they are fully executable. -/

/-- Embedding of Rust `str::contains(char)`. -/
def strContainsChar (s : String) (c : Char) : Bool :=
  s.data.contains c

/-- Embedding of Rust `str::contains(&str)`: substring occurrence. -/
def strContainsSub (s pat : String) : Bool :=
  go s.data
where
  go : List Char → Bool
    | [] => pat.data.isPrefixOf []
    | c :: rest => pat.data.isPrefixOf (c :: rest) || go rest

/-- One fuel-indexed pass of Rust `str::replace`: replace the leftmost
occurrences of a non-empty `pat` by `rep`, left to right, non-overlapping.
The fuel is the length of the remaining input, which bounds the recursion. -/
def replaceAux (pat rep : List Char) : Nat → List Char → List Char
  | 0, s => s
  | fuel + 1, s =>
    if !pat.isEmpty && pat.isPrefixOf s then
      rep ++ replaceAux pat rep fuel (s.drop pat.length)
    else
      match s with
      | [] => []
      | c :: rest => c :: replaceAux pat rep fuel rest

/-- Embedding of Rust `str::replace` (the handler only replaces the non-empty
pattern `"[SLEEP]"`). -/
def strReplace (s pat rep : String) : String :=
  String.mk (replaceAux pat.data rep.data s.data.length s.data)

/-- Embedding of Rust `str::trim`: drop leading and trailing whitespace. -/
def strTrim (s : String) : String :=
  String.mk (((s.data.dropWhile Char.isWhitespace).reverse.dropWhile Char.isWhitespace).reverse)

/-- Embedding of Rust `str::is_empty`. -/
def strIsEmpty (s : String) : Bool :=
  s.data.isEmpty

/-- The characters the handler treats as carrying `Emoji_Presentation`.  The
`clean_text_and_extract_emotion` regex strips the full Unicode class; the
embedding restricts it to the emoji the handler itself inspects, which are the
only emoji occurring in this development's inputs. -/
def emojiPresentation : List Char := ['😂', '😊', '😭', '😢', '😡']

/-- Embedding of `clean_text_and_extract_emotion`
(`src/handlers/websocket.rs` lines 137-156): strip emoji-presentation
characters and infer a coarse emotion tag from the raw text. -/
def clean_text_and_extract_emotion (text : String) : String × Option String :=
  let cleaned := String.mk (text.data.filter (fun c => ¬ emojiPresentation.contains c))
  let emotion :=
    if strContainsChar text '😂' || strContainsChar text '😊' || strContainsChar text '哈'
        || strContainsChar text '嘻' then
      some "happy"
    else if strContainsChar text '😭' || strContainsChar text '😢'
        || strContainsChar text '难' then
      some "sad"
    else if strContainsChar text '😡' || strContainsChar text '怒' then
      some "angry"
    else
      none
  (cleaned, emotion)

/-- Escape of a character inside a serialized JSON string (quote and
backslash; the values serialized by the modelled paths contain no control
characters). -/
def escapeJsonChar (c : Char) : String :=
  if c = '"' then "\\\""
  else if c = '\\' then "\\\\"
  else String.singleton c

/-- Escape a string for JSON serialization. -/
def escapeJsonString (s : String) : String :=
  String.join (s.data.map escapeJsonChar)

mutual

/-- Embedding of `serde_json::Value::to_string` (compact JSON serialization),
used by `process_text_logic` when a tool result has neither `content` nor
`error`. -/
def jsonToString : JValue → String
  | .null => "null"
  | .bool b => if b then "true" else "false"
  | .num n => toString n
  | .str s => "\"" ++ escapeJsonString s ++ "\""
  | .arr xs => "[" ++ String.intercalate "," (jsonListToString xs) ++ "]"
  | .obj fs => "\x7b" ++ String.intercalate "," (jsonFieldsToString fs) ++ "\x7d"

/-- Serialize the elements of a JSON array. -/
def jsonListToString : List JValue → List String
  | [] => []
  | v :: vs => jsonToString v :: jsonListToString vs

/-- Serialize the fields of a JSON object. -/
def jsonFieldsToString : List (String × JValue) → List String
  | [] => []
  | (k, v) :: fs => ("\"" ++ escapeJsonString k ++ "\":" ++ jsonToString v) :: jsonFieldsToString fs

end

mutual

/-- Embedding of the `Debug` rendering (`format args with debug`) of a
`serde_json::Value`, used for the `"Error: ..."` synthetic tool result. -/
def jsonDebug : JValue → String
  | .null => "Null"
  | .bool b => if b then "Bool(true)" else "Bool(false)"
  | .num n => "Number(" ++ toString n ++ ")"
  | .str s => "String(\"" ++ escapeJsonString s ++ "\")"
  | .arr xs => "Array [" ++ String.intercalate ", " (jsonListDebug xs) ++ "]"
  | .obj fs => "Object \x7b" ++ String.intercalate ", " (jsonFieldsDebug fs) ++ "\x7d"

/-- Debug-render the elements of a JSON array. -/
def jsonListDebug : List JValue → List String
  | [] => []
  | v :: vs => jsonDebug v :: jsonListDebug vs

/-- Debug-render the fields of a JSON object. -/
def jsonFieldsDebug : List (String × JValue) → List String
  | [] => []
  | (k, v) :: fs => ("\"" ++ escapeJsonString k ++ "\": " ++ jsonDebug v) :: jsonFieldsDebug fs

end

/-- Extraction of the text to feed back to the model from a tool result
(`process_text_logic` lines 419-435): concatenate `content[*].text`, or
format the `error` field, or serialize the whole value. -/
def toolOutput (result_json : JValue) : String :=
  match (result_json.getField "content").bind JValue.asArray with
  | some content_array =>
      String.join (content_array.map
        (fun c => (((c.getField "text").bind JValue.asStr)).getD ""))
  | none =>
      match result_json.getField "error" with
      | some err => "Error: " ++ jsonDebug err
      | none => jsonToString result_json

/-- Outcome of one `tools/call` round trip as observed by the Turn Processor:
the RPC reply (`Ok`/`Err` from the router), a closed reply channel
(`resp_rx.await` failed), or a failed handoff to the Session Loop
(`mcp_rpc_tx.send` failed). -/
inductive ToolReply where
  | ok (v : JValue)
  | err (e : String)
  | closed
  | sendFail
deriving Repr

/-- The per-call body of the `for call in tool_calls` loop of
`process_text_logic`: build the `tool` history messages in order, or abort the
turn (`none`) when the RPC channel is closed or the handoff fails. -/
def execCalls (toolExec : ToolCall → ToolReply) : List ToolCall → Option (List ChatMsg)
  | [] => some []
  | call :: rest =>
    match toolExec call with
    | .sendFail => none
    | .closed => none
    | .ok val =>
        (execCalls toolExec rest).map (fun ms =>
          { role := "tool", content := toolOutput val,
            tool_calls := [], tool_call_id := some call.id } :: ms)
    | .err e =>
        (execCalls toolExec rest).map (fun ms =>
          { role := "tool", content := toolOutput (JValue.obj [("error", JValue.str e)]),
            tool_calls := [], tool_call_id := some call.id } :: ms)

/-- Result of one Turn Processor invocation: the outbound messages it sent,
the chat-history rows it persisted, the `should_sleep` return value, and the
number of language-model calls it made. -/
structure TurnOut where
  out : List OutMessage
  dbWrites : List (String × String)
  should_sleep : Bool
  llmCalls : Nat
deriving Repr

/-- A `TurnOut` with no effects. -/
def emptyTurn (calls : Nat) : TurnOut :=
  { out := [], dbWrites := [], should_sleep := false, llmCalls := calls }

/-- The raw response of the `Text` branch for model text `s`: `[SLEEP]`
removed and trimmed (`raw_response` in the source). -/
def rawResponse (s : String) : String :=
  strTrim (strReplace s "[SLEEP]" "")

/-- The cleaned assistant text computed by the `Text` branch for model text
`s` (`clean_text` in the source). -/
def cleanedResponse (s : String) : String :=
  (clean_text_and_extract_emotion (rawResponse s)).1

/-- The emotion tag computed by the `Text` branch for model text `s`. -/
def responseEmotion (s : String) : Option String :=
  (clean_text_and_extract_emotion (rawResponse s)).2

/-- The `ChatResponse::Text` branch of `process_text_logic` (lines 236-370):
scrub the response, and when the cleaned text is non-empty emit the
`Llm`/`Tts start`/`Tts sentence_start`/frames/`Tts stop` sequence and persist
the user and assistant turns.  Awaited sends are modelled as succeeding (the
outbound writer is alive); a synthesizer error logs, emits no frames, and
still emits `Tts stop`. -/
def textBranch (tts : String → Option String → Except String (List Frame))
    (user_text response_text : String) : TurnOut :=
  if strIsEmpty (cleanedResponse response_text) then
    { emptyTurn 1 with should_sleep := strContainsSub response_text "[SLEEP]" }
  else
    { out :=
        [OutMessage.text (ServerMessage.Llm
            (match responseEmotion response_text with | some e => some e | none => some "happy")
            (some (cleanedResponse response_text))),
         OutMessage.text (ServerMessage.Tts "start" none),
         OutMessage.text (ServerMessage.Tts "sentence_start" (some (cleanedResponse response_text)))]
        ++ (match tts (cleanedResponse response_text) (responseEmotion response_text) with
            | .ok fs => fs.map OutMessage.binary
            | .error _ => [])
        ++ [OutMessage.text (ServerMessage.Tts "stop" none)],
      dbWrites := [("user", user_text), ("model", cleanedResponse response_text)],
      should_sleep := strContainsSub response_text "[SLEEP]",
      llmCalls := 1 }

/-- Embedding of `MAX_LOOPS`. -/
def MAX_LOOPS : Nat := 5

/-- The bounded dialog loop of `process_text_logic` (lines 222-453), with the
remaining iteration budget as fuel (`MAX_LOOPS - loop_count`): at fuel 0 the
cap is breached and the worker returns `false` with no further output; a model
error aborts the turn; a `Text` response runs `textBranch`; a `ToolCall`
response appends the assistant and tool messages and continues. -/
def runDialog (llm : List ChatMsg → Option (List ToolDefinition) → Except String ChatResponse)
    (tts : String → Option String → Except String (List Frame))
    (toolExec : ToolCall → ToolReply)
    (mcp_tools : Option (List ToolDefinition)) (user_text : String) :
    Nat → List ChatMsg → TurnOut
  | 0, _ => emptyTurn 0
  | fuel + 1, messages =>
    match llm messages mcp_tools with
    | .error _ => emptyTurn 1
    | .ok (ChatResponse.Text response_text) => textBranch tts user_text response_text
    | .ok (ChatResponse.ToolCall tool_calls) =>
      match execCalls toolExec tool_calls with
      | none => emptyTurn 1
      | some toolMsgs =>
        let messages' := messages
          ++ [{ role := "assistant", content := "", tool_calls := tool_calls, tool_call_id := none }]
          ++ toolMsgs
        let r := runDialog llm tts toolExec mcp_tools user_text fuel messages'
        { r with llmCalls := r.llmCalls + 1 }

/-- The new user-turn history message pushed by `process_text_logic`. -/
def userMsg (text : String) : ChatMsg :=
  { role := "user", content := text, tool_calls := [], tool_call_id := none }

/-- Embedding of `process_text_logic` (lines 189-455): an empty utterance is
dropped; otherwise the fetched history plus the new user message enters the
bounded dialog loop.  `history` is the result of `get_chat_history` (empty on
a persistence error). -/
def process_text_logic
    (llm : List ChatMsg → Option (List ToolDefinition) → Except String ChatResponse)
    (tts : String → Option String → Except String (List Frame))
    (toolExec : ToolCall → ToolReply)
    (history : List ChatMsg) (mcp_tools : Option (List ToolDefinition))
    (text : String) : TurnOut :=
  if strIsEmpty (strTrim text) then emptyTurn 0
  else
    runDialog llm tts toolExec mcp_tools text MAX_LOOPS (history ++ [userMsg text])

/-- Embedding of `ControlMessage`. -/
inductive ControlMessage where
  | LlmFinished
  | Sleep
deriving Repr, DecidableEq

/-- The Turn Processor task wrapper (lines 713-730): after
`process_text_logic` returns, signal `Sleep` when it requested sleep and
`LlmFinished` otherwise. -/
def turnControl (r : TurnOut) : ControlMessage :=
  if r.should_sleep then ControlMessage.Sleep else ControlMessage.LlmFinished

/-- Embedding of `trigger_tts_only` (lines 457-538): the standby synthesizer
path emits `Tts start`, `Tts sentence_start` with the prompt, the synthesized
frames, and `Tts stop` (frames are skipped on a synthesizer error). -/
def trigger_tts_only (tts : String → Option String → Except String (List Frame))
    (text : String) : List OutMessage :=
  [OutMessage.text (ServerMessage.Tts "start" none),
   OutMessage.text (ServerMessage.Tts "sentence_start" (some text))]
  ++ (match tts text none with
      | .ok fs => fs.map OutMessage.binary
      | .error _ => [])
  ++ [OutMessage.text (ServerMessage.Tts "stop" none)]

/-! ## Audio pacing (`process_text_logic` lines 303-339, `trigger_tts_only`
lines 493-520)

Time is in milliseconds.  `sendCost i` is the (arbitrary, non-negative) time
the awaited send of frame `i` takes; only send costs and `tokio::time::sleep`
advance the clock. -/

/-- Embedding of `frame_duration` (60 ms). -/
def frame_duration_ms : Nat := 60

/-- Embedding of `cache_frame_count` (2-frame head start). -/
def cache_frame_count : Nat := 2

/-- The flow-control wait before sending a frame: with `total_frames` frames
already sent and the clock at `now`, sleep until
`start_time + 60·(total_frames − 2)` when at least 2 frames are out and that
target is still in the future. -/
def paceWait (start_time total_frames now : Nat) : Nat :=
  if cache_frame_count ≤ total_frames then
    max now (start_time + frame_duration_ms * (total_frames - cache_frame_count))
  else now

/-- The instant frame `i` is handed to the outbound queue, with `t0` the clock
at loop entry (`start_time`). -/
def frameEnqueueTime (t0 : Nat) (sendCost : Nat → Nat) : Nat → Nat
  | 0 => paceWait t0 0 t0
  | i + 1 => paceWait t0 (i + 1) (frameEnqueueTime t0 sendCost i + sendCost i)

/-- The clock after the send loop has emitted all `n` frames. -/
def afterFramesClock (t0 : Nat) (sendCost : Nat → Nat) : Nat → Nat
  | 0 => t0
  | n + 1 => frameEnqueueTime t0 sendCost n + sendCost n

/-- The instant `Tts{stop}` is emitted for an `n`-frame utterance: sleep out
the remainder of `60·n` ms measured from `t0`, then a fixed 500 ms tail. -/
def ttsStopTime (t0 : Nat) (sendCost : Nat → Nat) (n : Nat) : Nat :=
  max (afterFramesClock t0 sendCost n) (t0 + frame_duration_ms * n) + 500

/-! ## Session Loop (`handle_socket_inner`, lines 636-1044)

The loop multiplexes inbound socket frames, recognition events, control
messages from the Turn Processor, RPC relays, internal tool updates, and the
idle timer.  One loop iteration is embedded as the pure step function
`sessionStep` on the loop-local state; environment outcomes that the step
reacts to (JSON parse results, Opus decode results, `try_send` success) are
carried on the events. -/

/-- Embedding of `JsonRpcError` from `src/services/mcp.rs`. -/
structure JsonRpcError where
  code : Int
  message : String
  data : Option JValue
deriving Repr

/-- Embedding of `JsonRpcResponse` from `src/services/mcp.rs` (as obtained by
`serde_json::from_value`). -/
structure JsonRpcResponse where
  jsonrpc : String
  result : Option JValue
  error : Option JsonRpcError
  id : Option JValue
deriving Repr

/-- Embedding of `McpTool` from `src/services/mcp.rs`. -/
structure McpTool where
  name : String
  description : String
  input_schema : JValue
deriving Repr

/-- Embedding of `McpToolListResult` from `src/services/mcp.rs`. -/
structure McpToolListResult where
  tools : List McpTool
  next_cursor : Option String
deriving Repr

/-- Lookup of an optional serde field: a JSON `null` deserializes `Option<_>`
to `None`, exactly like a missing field. -/
def optField (v : JValue) (key : String) : Option JValue :=
  match v.getField key with
  | some JValue.null => none
  | r => r

/-- Embedding of `serde_json::from_value::<JsonRpcError>`. -/
def parseJsonRpcError (v : JValue) : Option JsonRpcError :=
  match v with
  | .obj _ =>
    match (v.getField "code").bind JValue.asI64, (v.getField "message").bind JValue.asStr with
    | some code, some message => some { code := code, message := message, data := optField v "data" }
    | _, _ => none
  | _ => none

/-- Embedding of `serde_json::from_value::<JsonRpcResponse>`: `jsonrpc` is a
required string; `result`, `error` and `id` are optional, with a present
`error` required to parse as `JsonRpcError`. -/
def parseJsonRpcResponse (payload : JValue) : Option JsonRpcResponse :=
  match payload with
  | .obj _ =>
    match (payload.getField "jsonrpc").bind JValue.asStr with
    | none => none
    | some ver =>
      match optField payload "error" with
      | none => some { jsonrpc := ver, result := optField payload "result",
                       error := none, id := optField payload "id" }
      | some ev =>
        match parseJsonRpcError ev with
        | none => none
        | some e => some { jsonrpc := ver, result := optField payload "result",
                           error := some e, id := optField payload "id" }
  | _ => none

/-- Embedding of `serde_json::from_value::<McpTool>`: `name` is a required
string, `description` defaults to `""` when missing, `inputSchema` is a
required value. -/
def parseMcpTool (v : JValue) : Option McpTool :=
  match v with
  | .obj _ =>
    match (v.getField "name").bind JValue.asStr with
    | none => none
    | some name =>
      match v.getField "description" with
      | none =>
          (v.getField "inputSchema").map
            (fun sch => { name := name, description := "", input_schema := sch })
      | some dv =>
        match dv.asStr with
        | none => none
        | some dsc =>
            (v.getField "inputSchema").map
              (fun sch => { name := name, description := dsc, input_schema := sch })
  | _ => none

/-- Embedding of `serde_json::from_value::<McpToolListResult>`: required
`tools` array of tools, optional `nextCursor` string. -/
def parseMcpToolList (v : JValue) : Option McpToolListResult :=
  match v with
  | .obj _ =>
    match (v.getField "tools").bind JValue.asArray with
    | none => none
    | some arr =>
      match arr.mapM parseMcpTool with
      | none => none
      | some tools =>
        match v.getField "nextCursor" with
        | none => some { tools := tools, next_cursor := none }
        | some JValue.null => some { tools := tools, next_cursor := none }
        | some (JValue.str s) => some { tools := tools, next_cursor := some s }
        | some _ => none
  | _ => none

/-- Embedding of `ClientMessage` (inbound JSON messages, already parsed; the
Session Loop receives the `serde_json::from_str` result). -/
inductive ClientMessage where
  | Hello (version : Nat) (transport : String) (audio_params : AudioParams)
      (features : Option JValue)
  | Listen (session_id : String) (state : String) (mode : Option String) (text : Option String)
  | Abort (session_id : String) (reason : String)
  | Iot (session_id : String) (descriptors : Option JValue) (states : Option JValue)
  | Mcp (payload : JValue) (session_id : Option String)
deriving Repr

/-- Embedding of `SessionState` (the conversation state machine). -/
inductive SessionStateEnum where
  | Listening
  | Processing
deriving Repr, DecidableEq

/-- Embedding of `McpState` (tool-discovery state). -/
inductive McpState where
  | Disabled
  | Initializing
  | Ready
deriving Repr, DecidableEq

/-- The Session Loop's local state (`handle_socket_inner` locals, lines
647-757).  `inserted_ids` is a ghost field recording every id ever inserted
into `pending_mcp_requests`, used to state the completion invariant. -/
structure SessionData where
  current_session_id : String
  accumulated_text : String
  state_enum : SessionStateEnum
  last_activity : Nat
  is_standby : Bool
  mcp_state : McpState
  mcp_request_id_counter : Int
  pending_mcp_requests : List Int
  mcp_tools : List McpTool
  inserted_ids : List Int
deriving Repr

/-- How a waiter on a pending RPC observes its completion: the RPC-level
error, the successful result, the immediate queue-full failure, or the
receive error produced when the session ends and the map (and its one-shot
senders) is dropped. -/
inductive Completion where
  | rpcError (code : Int) (message : String)
  | resultOk (v : JValue)
  | queueFull
  | dropped
deriving Repr

/-- Embedding of `RpcCall` (the request relayed from the Turn Processor; the
one-shot reply sender is modelled by the completion log). -/
structure RpcCall where
  method : String
  params : JValue
deriving Repr

/-- One event delivered to the `tokio::select!` of the Session Loop.  `wsText`
carries the parse result of an inbound text message, `wsBinary` the Opus
decode result, `rpc` the `try_send` outcome of the outbound relay, and
`timer` is the idle-timeout branch firing. -/
inductive LoopEvent where
  | wsText (parsed : Option ClientMessage)
  | wsBinary (decoded : Option (List Int))
  | wsPing
  | wsPong
  | wsClose
  | wsErr
  | stt (e : SttEvent)
  | control (c : ControlMessage)
  | rpc (call : RpcCall) (queueOk : Bool)
  | mcpEvent (tools : List McpTool)
  | streamEnd
  | timer
deriving Repr

/-- The effects of one Session Loop iteration: the updated state, the messages
handed to the outbound queue, the utterances handed to the Turn Processor, the
PCM chunks forwarded to the Recognition Bridge, the waiter completions, whether
the loop continues, and whether a standby utterance task was spawned. -/
structure StepResult where
  d : SessionData
  out : List OutMessage
  toLlm : List (String × Option (List ToolDefinition))
  toStt : List (List Int)
  completions : List (Int × Completion)
  cont : Bool
  standbySpawn : Bool
deriving Repr

/-- A step with no effects beyond the state update. -/
def noEffect (d : SessionData) : StepResult :=
  { d := d, out := [], toLlm := [], toStt := [], completions := [],
    cont := true, standbySpawn := false }

/-- Embedding of `feats.get("mcp").and_then(|v| v.as_bool()).unwrap_or(false)`
guarded by `if let Some(feats) = features`. -/
def featuresMcp (features : Option JValue) : Bool :=
  match features with
  | some feats => ((feats.getField "mcp").bind JValue.asBool).getD false
  | none => false

/-- The tool definitions passed to the Turn Processor: `None` when the
catalogue is empty, otherwise the converted catalogue. -/
def toolDefsOf (mcp_tools : List McpTool) : Option (List ToolDefinition) :=
  if !mcp_tools.isEmpty then
    some (mcp_tools.map (fun t =>
      { name := t.name, description := t.description, parameters := t.input_schema }))
  else
    none

/-- The server `Hello` reply (lines 785-792). -/
def helloReply : OutMessage :=
  OutMessage.text (ServerMessage.Hello "websocket"
    (some { sample_rate := 16000, frame_duration := 60 }))

/-- The serialized `McpInitializeParams` of the handshake `initialize` request
(lines 806-813). -/
def initializeParams : JValue :=
  JValue.obj
    [("capabilities", JValue.obj []),
     ("protocolVersion", JValue.str "2024-11-05"),
     ("clientInfo", JValue.obj
        [("name", JValue.str "XiaoZhi Server"), ("version", JValue.str "1.0.0")])]

/-- Dispatch of a parsed inbound `ClientMessage` (lines 783-908).  `d` already
carries the refreshed `last_activity` and cleared standby flag, which the code
applies to every inbound text message before parsing. -/
def handleClientMessage (d : SessionData) (cm : ClientMessage) : StepResult :=
  match cm with
  | .Hello _ _ _ features =>
    if featuresMcp features then
      { noEffect { d with mcp_state := McpState.Initializing,
                          mcp_request_id_counter := d.mcp_request_id_counter + 1 } with
        out := [helloReply,
          OutMessage.text (ServerMessage.Mcp
            (create_request "initialize" (some initializeParams)
              (some (JValue.num d.mcp_request_id_counter)))
            (some d.current_session_id))] }
    else
      { noEffect d with out := [helloReply] }
  | .Listen session_id listen_state _ _ =>
    if listen_state = "start" then
      noEffect { d with current_session_id := session_id,
                        state_enum := SessionStateEnum.Listening, accumulated_text := "" }
    else if listen_state = "stop" then
      if !strIsEmpty d.accumulated_text then
        { noEffect { d with current_session_id := session_id,
                            state_enum := SessionStateEnum.Processing,
                            accumulated_text := "" } with
          toLlm := [(d.accumulated_text, toolDefsOf d.mcp_tools)] }
      else
        noEffect { d with current_session_id := session_id,
                          state_enum := SessionStateEnum.Processing }
    else
      noEffect { d with current_session_id := session_id }
  | .Abort _ _ =>
    noEffect { d with state_enum := SessionStateEnum.Listening, accumulated_text := "" }
  | .Iot _ _ _ =>
    noEffect d
  | .Mcp payload _ =>
    match parseJsonRpcResponse payload with
    | none => noEffect d
    | some response =>
      match response.id with
      | none => noEffect d
      | some idv =>
        match idv.asI64 with
        | none => noEffect d
        | some i =>
          if d.pending_mcp_requests.contains i then
            { noEffect { d with pending_mcp_requests := d.pending_mcp_requests.erase i } with
              completions := [(i,
                match response.error with
                | some e => Completion.rpcError e.code e.message
                | none => Completion.resultOk (response.result.getD JValue.null))] }
          else if d.mcp_state = McpState.Initializing then
            { noEffect { d with mcp_request_id_counter := d.mcp_request_id_counter + 1,
                                mcp_state := McpState.Ready } with
              out := [OutMessage.text (ServerMessage.Mcp
                (create_request "tools/list" (some (JValue.obj [("cursor", JValue.str "")]))
                  (some (JValue.num d.mcp_request_id_counter)))
                (some d.current_session_id))] }
          else if d.mcp_state = McpState.Ready then
            match parseMcpToolList (response.result.getD (JValue.obj [])) with
            | some tool_list_res =>
              if !tool_list_res.tools.isEmpty then
                noEffect { d with mcp_tools := tool_list_res.tools }
              else
                noEffect d
            | none => noEffect d
          else
            noEffect d

/-- One iteration of the Session Loop (the `tokio::select!` body, lines
770-1038), at wall-clock instant `now`. -/
def sessionStep (now : Nat) (d : SessionData) (ev : LoopEvent) : StepResult :=
  match ev with
  | .wsText parsed =>
    match parsed with
    | some cm => handleClientMessage { d with last_activity := now, is_standby := false } cm
    | none => noEffect { d with last_activity := now, is_standby := false }
  | .wsBinary decoded =>
    if d.state_enum = SessionStateEnum.Listening then
      match decoded with
      | some pcm => { noEffect { d with is_standby := false } with toStt := [pcm] }
      | none => noEffect { d with is_standby := false }
    else
      noEffect d
  | .wsPing => { noEffect d with out := [OutMessage.pong] }
  | .wsPong => noEffect d
  | .wsClose => { noEffect d with cont := false }
  | .wsErr => { noEffect d with cont := false }
  | .stt (SttEvent.Text t) =>
    { noEffect { d with last_activity := now, is_standby := false,
                        accumulated_text := d.accumulated_text ++ t ++ " " } with
      out := [OutMessage.text (ServerMessage.Stt (d.accumulated_text ++ t ++ " "))] }
  | .stt SttEvent.NoSpeech =>
    if !strIsEmpty (strTrim d.accumulated_text) then
      { noEffect { d with state_enum := SessionStateEnum.Processing,
                          accumulated_text := "" } with
        toLlm := [(d.accumulated_text, toolDefsOf d.mcp_tools)] }
    else
      noEffect d
  | .control ControlMessage.LlmFinished =>
    noEffect { d with state_enum := SessionStateEnum.Listening,
                      last_activity := now, is_standby := false }
  | .control ControlMessage.Sleep =>
    { noEffect d with out := [OutMessage.close], cont := false }
  | .rpc call queueOk =>
    if queueOk then
      { noEffect { d with mcp_request_id_counter := d.mcp_request_id_counter + 1,
                          pending_mcp_requests :=
                            d.mcp_request_id_counter :: d.pending_mcp_requests,
                          inserted_ids := d.mcp_request_id_counter :: d.inserted_ids } with
        out := [OutMessage.text (ServerMessage.Mcp
          (create_request call.method (some call.params)
            (some (JValue.num d.mcp_request_id_counter)))
          (some d.current_session_id))] }
    else
      { noEffect { d with mcp_request_id_counter := d.mcp_request_id_counter + 1 } with
        out := [OutMessage.text (ServerMessage.Mcp
          (create_request call.method (some call.params)
            (some (JValue.num d.mcp_request_id_counter)))
          (some d.current_session_id))],
        completions := [(d.mcp_request_id_counter, Completion.queueFull)] }
  | .mcpEvent tools =>
    noEffect { d with mcp_tools := tools }
  | .streamEnd => { noEffect d with cont := false }
  | .timer =>
    if !d.is_standby ∧ d.state_enum ≠ SessionStateEnum.Processing then
      { noEffect { d with is_standby := true } with standbySpawn := true }
    else
      noEffect d

/-- The select-arm timeout computed each iteration (lines 760-768), in ms:
far-future while Processing, else the remaining idle budget (floor 100 ms). -/
def sleepDuration (now : Nat) (d : SessionData) (max_idle_duration : Nat) : Nat :=
  if d.state_enum = SessionStateEnum.Processing then
    1000 * (3600 * 24)
  else if now < d.last_activity + max_idle_duration then
    d.last_activity + max_idle_duration - now
  else
    100

/-- The task spawned when the idle timer fires (lines 1029-1036): play the
configured standby prompt through `trigger_tts_only`, then send `Sleep`. -/
def standbyTask (tts : String → Option String → Except String (List Frame))
    (standby_prompt : String) : List OutMessage × ControlMessage :=
  (trigger_tts_only tts standby_prompt, ControlMessage.Sleep)

/-- The Session Loop state at loop entry, with `t` the connection instant. -/
def initSession (t : Nat) : SessionData :=
  { current_session_id := "", accumulated_text := "",
    state_enum := SessionStateEnum.Listening, last_activity := t, is_standby := false,
    mcp_state := McpState.Disabled, mcp_request_id_counter := 1,
    pending_mcp_requests := [], mcp_tools := [], inserted_ids := [] }

/-- Run the Session Loop over a timed event trace: returns the final state,
the accumulated waiter completions, and whether the loop broke.  When the loop
breaks, `pending_mcp_requests` is dropped with the session frame, which
delivers a receive error (`Completion.dropped`) to each remaining waiter —
the `tokio::sync::oneshot` semantics of dropping a sender. -/
def runLoop : SessionData → List (Nat × LoopEvent) → SessionData × List (Int × Completion) × Bool
  | d, [] => (d, [], false)
  | d, (now, ev) :: rest =>
    match sessionStep now d ev with
    | r =>
      if r.cont then
        match runLoop r.d rest with
        | (d2, cs, ended) => (d2, r.completions ++ cs, ended)
      else
        (r.d, r.completions ++ r.d.pending_mcp_requests.map (fun i => (i, Completion.dropped)),
         true)

/-- Number of completions delivered for id `i` in a completion log. -/
def countFor (log : List (Int × Completion)) (i : Int) : Nat :=
  (log.map Prod.fst).count i

/-- Whether an outbound message is a server `Hello` reply. -/
def isHelloMsg : OutMessage → Bool
  | OutMessage.text (ServerMessage.Hello _ _) => true
  | _ => false

theorem drainChunks_flatten (chunk_size : Nat) (buffer : List Int) :
    (drainChunks chunk_size buffer).1.flatten ++ (drainChunks chunk_size buffer).2 = buffer := by
  induction buffer using drainChunks.induct chunk_size with
  | case1 buffer h chunks rest heq ih =>
      rw [drainChunks]
      simp only [dif_pos h, heq]
      rw [heq] at ih
      simp only at ih
      simp only [List.flatten_cons, List.append_assoc, ih]
      exact List.take_append_drop chunk_size buffer
  | case2 buffer h =>
      rw [drainChunks]
      simp [dif_neg h]

theorem drainChunks_lengths (chunk_size : Nat) (buffer : List Int) :
    ∀ c ∈ (drainChunks chunk_size buffer).1, c.length = chunk_size := by
  induction buffer using drainChunks.induct chunk_size with
  | case1 buffer h chunks rest heq ih =>
      rw [drainChunks]
      simp only [dif_pos h, heq]
      rw [heq] at ih
      simp only at ih
      intro c hc
      rcases List.mem_cons.mp hc with rfl | hc
      · exact List.length_take_of_le h.2
      · exact ih c hc
  | case2 buffer h =>
      rw [drainChunks]
      simp [dif_neg h]

theorem drainChunks_rest_short (chunk_size : Nat) (buffer : List Int)
    (hpos : 0 < chunk_size) :
    (drainChunks chunk_size buffer).2.length < chunk_size := by
  induction buffer using drainChunks.induct chunk_size with
  | case1 buffer h chunks rest heq ih =>
      rw [drainChunks]
      simp only [dif_pos h, heq]
      rw [heq] at ih
      simpa using ih
  | case2 buffer h =>
      rw [drainChunks]
      simp only [dif_neg h]
      omega

theorem chunkStep_flatten (chunk_size : Nat) (acc : List (List Int) × List Int)
    (chunk : List Int) :
    (chunkStep chunk_size acc chunk).1.flatten ++ (chunkStep chunk_size acc chunk).2
      = acc.1.flatten ++ (acc.2 ++ chunk) := by
  unfold chunkStep
  rcases hr : drainChunks chunk_size (acc.2 ++ chunk) with ⟨newChunks, rest⟩
  have hflat := drainChunks_flatten chunk_size (acc.2 ++ chunk)
  rw [hr] at hflat
  simp only at hflat ⊢
  rw [List.flatten_append, List.append_assoc, hflat]

theorem chunkFold_flatten (chunk_size : Nat) (input : List (List Int)) :
    ∀ acc : List (List Int) × List Int,
      (input.foldl (chunkStep chunk_size) acc).1.flatten
          ++ (input.foldl (chunkStep chunk_size) acc).2
        = acc.1.flatten ++ acc.2 ++ input.flatten := by
  induction input with
  | nil => intro acc; simp
  | cons chunk rest ih =>
      intro acc
      rw [List.foldl_cons, ih, chunkStep_flatten]
      simp [List.append_assoc]

theorem chunkFold_lengths (chunk_size : Nat) (input : List (List Int)) :
    ∀ acc : List (List Int) × List Int, (∀ c ∈ acc.1, c.length = chunk_size) →
      ∀ c ∈ (input.foldl (chunkStep chunk_size) acc).1, c.length = chunk_size := by
  induction input with
  | nil => intro acc hacc; simpa using hacc
  | cons chunk rest ih =>
      intro acc hacc
      rw [List.foldl_cons]
      refine ih _ ?_
      unfold chunkStep
      rcases hr : drainChunks chunk_size (acc.2 ++ chunk) with ⟨newChunks, r⟩
      have hlen := drainChunks_lengths chunk_size (acc.2 ++ chunk)
      rw [hr] at hlen
      simp only at hlen ⊢
      intro c hc
      rcases List.mem_append.mp hc with hc | hc
      · exact hacc c hc
      · exact hlen c hc

theorem chunkFold_buffer_short (chunk_size : Nat) (input : List (List Int))
    (hpos : 0 < chunk_size) :
    ∀ acc : List (List Int) × List Int, acc.2.length < chunk_size →
      (input.foldl (chunkStep chunk_size) acc).2.length < chunk_size := by
  induction input with
  | nil => intro acc hacc; simpa using hacc
  | cons chunk rest ih =>
      intro acc hacc
      rw [List.foldl_cons]
      refine ih _ ?_
      unfold chunkStep
      rcases hr : drainChunks chunk_size (acc.2 ++ chunk) with ⟨newChunks, r⟩
      have hshort := drainChunks_rest_short chunk_size (acc.2 ++ chunk) hpos
      rw [hr] at hshort
      simpa using hshort

theorem flatten_length_of_uniform (k : Nat) :
    ∀ out : List (List Int), (∀ c ∈ out, c.length = k) → out.flatten.length = k * out.length := by
  intro out
  induction out with
  | nil => simp
  | cons c rest ih =>
      intro h
      rw [List.flatten_cons, List.length_append, ih (fun d hd => h d (List.mem_cons_of_mem c hd)),
        h c (List.mem_cons_self c rest)]
      simp [List.length_cons, Nat.mul_succ]
      omega

/-- C9: the Recognition Bridge re-chunking yields only vectors of exactly 512
samples; the concatenation of the yielded vectors is the concatenation of the
input samples followed by the zero padding of the final partial chunk (empty
padding exactly when the total sample count is a multiple of 512), and the
number of yielded vectors is the total rounded up to full chunks, so no tail
chunk is emitted when the leftover is empty. -/
theorem chunk_stream_rechunks_with_zero_padding (input : List (List Int)) :
    (∀ c ∈ chunk_stream 512 input, c.length = 512) ∧
    (chunk_stream 512 input).flatten
      = input.flatten ++ List.replicate ((512 - input.flatten.length % 512) % 512) 0 ∧
    (chunk_stream 512 input).length = (input.flatten.length + 511) / 512 := by
  unfold chunk_stream
  rcases hf : input.foldl (chunkStep 512) ([], []) with ⟨out, buffer⟩
  have hflat := chunkFold_flatten 512 input ([], [])
  have hlen := chunkFold_lengths 512 input ([], []) (by simp)
  have hshort := chunkFold_buffer_short 512 input (by omega) ([], []) (by simp)
  rw [hf] at hflat hlen hshort
  simp only [List.flatten_nil, List.nil_append, List.append_nil] at hflat hlen hshort ⊢
  have houtlen : out.flatten.length = 512 * out.length := flatten_length_of_uniform 512 out hlen
  have htotal : input.flatten.length = 512 * out.length + buffer.length := by
    rw [← hflat, List.length_append, houtlen]
  by_cases hb : buffer.isEmpty
  · have hbnil : buffer = [] := List.isEmpty_iff.mp hb
    subst hbnil
    simp only [List.append_nil] at hflat
    simp only [List.length_nil, Nat.add_zero] at htotal
    simp only [List.isEmpty_nil, if_true]
    have hmod : input.flatten.length % 512 = 0 := by omega
    refine ⟨hlen, ?_, ?_⟩
    · rw [hmod]
      simpa using hflat
    · omega
  · have hbne : buffer ≠ [] := fun hc => hb (by simp [hc])
    have hbpos : 0 < buffer.length := List.length_pos.mpr hbne
    rw [if_neg hb]
    have hmod : input.flatten.length % 512 = buffer.length := by omega
    have hresize : vecResize buffer 512 = buffer ++ List.replicate (512 - buffer.length) 0 := by
      unfold vecResize
      rw [List.take_of_length_le (by omega)]
    refine ⟨?_, ?_, ?_⟩
    · intro c hc
      rcases List.mem_append.mp hc with hc | hc
      · exact hlen c hc
      · rcases List.mem_singleton.mp hc with rfl
        rw [hresize]
        simp only [List.length_append, List.length_replicate]
        omega
    · rw [List.flatten_append, hresize]
      simp only [List.flatten_cons, List.flatten_nil, List.append_nil]
      rw [← List.append_assoc, hflat, hmod]
      congr 2
      omega
    · simp only [List.length_append, List.length_cons, List.length_nil]
      omega

/-! ## Turn Processor: dialog-loop cap (C5) and outbound sequence (C1) -/

theorem runDialog_llmCalls_le
    (llm : List ChatMsg → Option (List ToolDefinition) → Except String ChatResponse)
    (tts : String → Option String → Except String (List Frame))
    (toolExec : ToolCall → ToolReply)
    (tools : Option (List ToolDefinition)) (user_text : String) :
    ∀ (fuel : Nat) (messages : List ChatMsg),
      (runDialog llm tts toolExec tools user_text fuel messages).llmCalls ≤ fuel := by
  intro fuel
  induction fuel with
  | zero => intro messages; simp [runDialog, emptyTurn]
  | succ n ih =>
      intro messages
      rw [runDialog]
      rcases llm messages tools with e | r
      · simp [emptyTurn]
      · rcases r with s | calls
        · simp only
          unfold textBranch
          split <;> simp [emptyTurn]
        · simp only
          rcases execCalls toolExec calls with _ | msgs
          · simp [emptyTurn]
          · simp only
            exact Nat.succ_le_succ (ih _)

theorem runDialog_all_tool_calls
    (llm : List ChatMsg → Option (List ToolDefinition) → Except String ChatResponse)
    (tts : String → Option String → Except String (List Frame))
    (toolExec : ToolCall → ToolReply)
    (tools : Option (List ToolDefinition)) (user_text : String)
    (htool : ∀ messages, ∃ calls msgs,
      llm messages tools = Except.ok (ChatResponse.ToolCall calls)
      ∧ execCalls toolExec calls = some msgs) :
    ∀ (fuel : Nat) (messages : List ChatMsg),
      runDialog llm tts toolExec tools user_text fuel messages = emptyTurn fuel := by
  intro fuel
  induction fuel with
  | zero => intro messages; simp [runDialog]
  | succ n ih =>
      intro messages
      obtain ⟨calls, msgs, hllm, hexec⟩ := htool messages
      rw [runDialog, hllm]
      simp only [hexec]
      rw [ih]
      simp [emptyTurn]

/-- C5: the dialog loop makes at most `MAX_LOOPS = 5` language-model calls per
turn; when the cap is breached (the model keeps requesting tool calls and
every round trip succeeds) the Turn Processor emits no outbound messages and
its wrapper signals `LlmFinished`, so the turn terminates whenever every model
call does. -/
theorem dialog_loop_capped_at_five
    (llm : List ChatMsg → Option (List ToolDefinition) → Except String ChatResponse)
    (tts : String → Option String → Except String (List Frame))
    (toolExec : ToolCall → ToolReply)
    (history : List ChatMsg) (tools : Option (List ToolDefinition)) (text : String) :
    (process_text_logic llm tts toolExec history tools text).llmCalls ≤ 5
    ∧ ((∀ messages, ∃ calls msgs,
          llm messages tools = Except.ok (ChatResponse.ToolCall calls)
          ∧ execCalls toolExec calls = some msgs) →
        (process_text_logic llm tts toolExec history tools text).out = []
        ∧ turnControl (process_text_logic llm tts toolExec history tools text)
            = ControlMessage.LlmFinished) := by
  constructor
  · unfold process_text_logic
    split
    · simp [emptyTurn]
    · exact runDialog_llmCalls_le llm tts toolExec tools text MAX_LOOPS _
  · intro htool
    unfold process_text_logic
    split
    · simp [emptyTurn, turnControl]
    · rw [runDialog_all_tool_calls llm tts toolExec tools text htool]
      simp [emptyTurn, turnControl, MAX_LOOPS]

theorem dialog_loop_capped_at_five_witness :
    (process_text_logic (fun _ _ => Except.ok (ChatResponse.ToolCall []))
        (fun _ _ => Except.ok []) (fun _ => ToolReply.closed) [] none "hi").out = [] :=
  ((dialog_loop_capped_at_five (fun _ _ => Except.ok (ChatResponse.ToolCall []))
    (fun _ _ => Except.ok []) (fun _ => ToolReply.closed) [] none "hi").2
    (fun _ => ⟨[], [], rfl, rfl⟩)).1

/-- C1 (counterexample): the language model returns the non-empty text
`"[SLEEP]"`, yet the turn emits no outbound message at all — in particular no
`Llm` and no `Tts` message — because the cleaned text is empty.  The claim as
stated (every turn with non-empty model text emits the full sequence) is
therefore false. -/
theorem nonempty_sleep_response_emits_nothing :
    ("[SLEEP]" : String) ≠ ""
    ∧ (process_text_logic (fun _ _ => Except.ok (ChatResponse.Text "[SLEEP]"))
        (fun _ _ => Except.ok [[1]]) (fun _ => ToolReply.closed) [] none "hi").out = []
    ∧ (process_text_logic (fun _ _ => Except.ok (ChatResponse.Text "[SLEEP]"))
        (fun _ _ => Except.ok [[1]]) (fun _ => ToolReply.closed) [] none "hi").should_sleep
        = true :=
  ⟨by decide, rfl, by decide⟩

/-- C1 (amended): for every turn in which the language model returns text
whose cleaned form (after `[SLEEP]` removal, trimming, and emoji scrubbing) is
non-empty, the Turn Processor emits exactly the ordered sequence
`Llm{emotion,text}`, `Tts{start}`, `Tts{sentence_start,text}`, zero or more
binary audio frames, `Tts{stop}`, with every binary frame after
`sentence_start` and before `stop`. -/
theorem text_turn_emits_ordered_pipeline
    (llm : List ChatMsg → Option (List ToolDefinition) → Except String ChatResponse)
    (tts : String → Option String → Except String (List Frame))
    (toolExec : ToolCall → ToolReply)
    (history : List ChatMsg) (tools : Option (List ToolDefinition)) (text s : String)
    (hne : strIsEmpty (strTrim text) = false)
    (hllm : llm (history ++ [userMsg text]) tools = Except.ok (ChatResponse.Text s))
    (hclean : strIsEmpty (cleanedResponse s) = false) :
    ∃ frames : List Frame,
      (process_text_logic llm tts toolExec history tools text).out =
        [OutMessage.text (ServerMessage.Llm
            (match responseEmotion s with | some e => some e | none => some "happy")
            (some (cleanedResponse s))),
         OutMessage.text (ServerMessage.Tts "start" none),
         OutMessage.text (ServerMessage.Tts "sentence_start" (some (cleanedResponse s)))]
        ++ frames.map OutMessage.binary
        ++ [OutMessage.text (ServerMessage.Tts "stop" none)] := by
  unfold process_text_logic
  rw [if_neg (by simp [hne])]
  rw [show MAX_LOOPS = 4 + 1 from rfl, runDialog, hllm]
  simp only
  unfold textBranch
  rw [if_neg (by simp [hclean])]
  rcases htts : tts (cleanedResponse s) (responseEmotion s) with e | fs
  · exact ⟨[], by simp [htts]⟩
  · exact ⟨fs, by simp [htts]⟩

theorem text_turn_emits_ordered_pipeline_witness :
    ∃ frames : List Frame,
      (process_text_logic (fun _ _ => Except.ok (ChatResponse.Text "hi"))
        (fun _ _ => Except.ok [[1, 2]]) (fun _ => ToolReply.closed) [] none "hello").out =
        [OutMessage.text (ServerMessage.Llm
            (match responseEmotion "hi" with | some e => some e | none => some "happy")
            (some (cleanedResponse "hi"))),
         OutMessage.text (ServerMessage.Tts "start" none),
         OutMessage.text (ServerMessage.Tts "sentence_start" (some (cleanedResponse "hi")))]
        ++ frames.map OutMessage.binary
        ++ [OutMessage.text (ServerMessage.Tts "stop" none)] :=
  text_turn_emits_ordered_pipeline (fun _ _ => Except.ok (ChatResponse.Text "hi"))
    (fun _ _ => Except.ok [[1, 2]]) (fun _ => ToolReply.closed) [] none "hello" "hi"
    (by decide) rfl (by decide)

/-! ## Audio pacing (C2) -/

/-- C2: frames 0 and 1 are enqueued with no pacing wait (frame 0 at `t0`,
frame 1 as soon as frame 0's send completes); every frame with index `i ≥ 2`
is enqueued no earlier than `t0 + 60·(i − 2)` ms; and `Tts{stop}` for an
`n`-frame utterance is emitted no earlier than `t0 + 60·n + 500` ms. -/
theorem audio_pacing_schedule (t0 : Nat) (sendCost : Nat → Nat) (n i : Nat)
    (h2 : 2 ≤ i) :
    frameEnqueueTime t0 sendCost 0 = t0
    ∧ frameEnqueueTime t0 sendCost 1 = frameEnqueueTime t0 sendCost 0 + sendCost 0
    ∧ t0 + 60 * (i - 2) ≤ frameEnqueueTime t0 sendCost i
    ∧ t0 + 60 * n + 500 ≤ ttsStopTime t0 sendCost n := by
  refine ⟨rfl, rfl, ?_, ?_⟩
  · obtain ⟨j, rfl⟩ : ∃ j, i = j + 1 := ⟨i - 1, by omega⟩
    rw [frameEnqueueTime]
    unfold paceWait
    rw [if_pos (by exact h2)]
    simp only [frame_duration_ms, cache_frame_count]
    exact Nat.le_max_right _ _
  · unfold ttsStopTime
    simp only [frame_duration_ms]
    have := Nat.le_max_right (afterFramesClock t0 sendCost n) (t0 + 60 * n)
    omega

theorem audio_pacing_schedule_witness :
    (2 : Nat) ≤ 2
    ∧ 0 + 60 * (2 - 2) ≤ frameEnqueueTime 0 (fun _ => 0) 2 :=
  ⟨by decide, (audio_pacing_schedule 0 (fun _ => 0) 3 2 (by decide)).2.2.1⟩

/-! ## Session Loop properties (C4, C6, C7, C8, C10) -/

theorem timer_noop_when_standby (now : Nat) (d : SessionData) (h : d.is_standby = true) :
    sessionStep now d LoopEvent.timer = noEffect d := by
  simp only [sessionStep]
  rw [if_neg]
  simp [h]

theorem timer_noop_when_processing (now : Nat) (d : SessionData)
    (h : d.state_enum = SessionStateEnum.Processing) :
    sessionStep now d LoopEvent.timer = noEffect d := by
  simp only [sessionStep]
  rw [if_neg]
  simp [h]

theorem handleClientMessage_last_activity (d : SessionData) (cm : ClientMessage) :
    (handleClientMessage d cm).d.last_activity = d.last_activity := by
  cases cm <;> simp only [handleClientMessage] <;>
    (repeat' split) <;> simp [noEffect]

theorem handleClientMessage_cont (d : SessionData) (cm : ClientMessage) :
    (handleClientMessage d cm).cont = true := by
  cases cm <;> simp only [handleClientMessage] <;>
    (repeat' split) <;> simp [noEffect]

/-- C8: when the Session Loop relays a `tools/call` RPC and the non-blocking
enqueue of the outbound tool-protocol message fails (queue full), the caller's
future is completed immediately with an error, the allocated id is not
inserted into the pending map, and the loop continues; on a successful
enqueue the id is inserted and no completion is delivered. -/
theorem rpc_enqueue_failure_completes_immediately (now : Nat) (d : SessionData)
    (call : RpcCall) :
    (sessionStep now d (LoopEvent.rpc call false)).completions
        = [(d.mcp_request_id_counter, Completion.queueFull)]
    ∧ (sessionStep now d (LoopEvent.rpc call false)).d.pending_mcp_requests
        = d.pending_mcp_requests
    ∧ (sessionStep now d (LoopEvent.rpc call false)).d.inserted_ids = d.inserted_ids
    ∧ (sessionStep now d (LoopEvent.rpc call false)).cont = true
    ∧ (sessionStep now d (LoopEvent.rpc call true)).completions = []
    ∧ (sessionStep now d (LoopEvent.rpc call true)).d.pending_mcp_requests
        = d.mcp_request_id_counter :: d.pending_mcp_requests := by
  simp [sessionStep, noEffect]

/-- C4 (counterexample): the first message of a connection being a non-`Hello`
control message (here `Listen{state:start}`) does not make the session fail:
the loop handles it normally and continues, emitting nothing. -/
theorem first_message_not_hello_session_proceeds :
    (sessionStep 0 (initSession 0)
        (LoopEvent.wsText (some (ClientMessage.Listen "s" "start" none none)))).cont = true
    ∧ (sessionStep 0 (initSession 0)
        (LoopEvent.wsText (some (ClientMessage.Listen "s" "start" none none)))).out = []
    ∧ (sessionStep 0 (initSession 0)
        (LoopEvent.wsText (some (ClientMessage.Listen "s" "start" none none)))).d.state_enum
        = SessionStateEnum.Listening :=
  ⟨rfl, rfl, rfl⟩

/-- C4 (amended): the engine does not require the first message to be `Hello`
and never fails a session for that reason — every inbound text message leaves
the loop running.  The server `Hello` reply with transport `websocket`,
`sample_rate` 16000 and `frame_duration` 60 is emitted exactly on receipt of a
client `Hello`: it heads the output of every `Hello` step and appears in the
output of no other text-message step. -/
theorem hello_reply_exactly_on_hello (now : Nat) (d : SessionData) (v : Nat) (tr : String)
    (ap : AudioParams) (ft : Option JValue) (pm : Option ClientMessage)
    (hnh : ∀ v2 tr2 ap2 ft2, pm ≠ some (ClientMessage.Hello v2 tr2 ap2 ft2)) :
    (∃ rest, (sessionStep now d (LoopEvent.wsText (some (ClientMessage.Hello v tr ap ft)))).out
        = helloReply :: rest)
    ∧ (∀ m ∈ (sessionStep now d (LoopEvent.wsText pm)).out, isHelloMsg m = false)
    ∧ (sessionStep now d (LoopEvent.wsText pm)).cont = true := by
  refine ⟨?_, ?_, ?_⟩
  · simp only [sessionStep, handleClientMessage]
    split
    · exact ⟨_, rfl⟩
    · exact ⟨[], rfl⟩
  · cases pm with
    | none => simp [sessionStep, noEffect]
    | some cm =>
      cases cm with
      | Hello v2 tr2 ap2 ft2 => exact absurd rfl (hnh v2 tr2 ap2 ft2)
      | Listen sid st mode txt =>
          simp only [sessionStep, handleClientMessage]
          (repeat' split) <;> simp [noEffect]
      | Abort sid reason => simp [sessionStep, handleClientMessage, noEffect]
      | Iot sid de st => simp [sessionStep, handleClientMessage, noEffect]
      | Mcp payload sid =>
          simp only [sessionStep, handleClientMessage]
          (repeat' split) <;> simp [noEffect, isHelloMsg]
  · cases pm with
    | none => simp [sessionStep, noEffect]
    | some cm => simpa [sessionStep] using handleClientMessage_cont _ cm

theorem hello_reply_exactly_on_hello_witness :
    (sessionStep 3 (initSession 0)
        (LoopEvent.wsText (some (ClientMessage.Abort "s" "user")))).cont = true :=
  (hello_reply_exactly_on_hello 3 (initSession 0) 1 "websocket"
    { format := "opus", sample_rate := 16000, channels := 1, frame_duration := 60 } none
    (some (ClientMessage.Abort "s" "user"))
    (fun _ _ _ _ h => by simp at h)).2.2

/-- C6 (counterexample): `SttEvent::NoSpeech` is a recognition event, yet
processing it leaves `last_activity` unchanged (here 5, although the iteration
runs at instant 100), so the claim that every recognition event refreshes
`last_activity` is false. -/
theorem nospeech_does_not_refresh_activity :
    (sessionStep 100 (initSession 5) (LoopEvent.stt SttEvent.NoSpeech)).d.last_activity = 5
    ∧ (5 : Nat) ≠ 100 :=
  ⟨rfl, by decide⟩

/-- C6 (amended): `last_activity` is refreshed by every inbound text message
(parsed or not), by `Text` recognition events, and by the `LlmFinished`
control event; it is never refreshed by an inbound binary audio frame (nor by
`NoSpeech` recognition events), so a device streaming only audio keeps its
`last_activity` unchanged and still reaches the idle timeout. -/
theorem last_activity_refresh_policy :
    (∀ now d pm, (sessionStep now d (LoopEvent.wsText pm)).d.last_activity = now)
    ∧ (∀ now d s,
        (sessionStep now d (LoopEvent.stt (SttEvent.Text s))).d.last_activity = now)
    ∧ (∀ now d,
        (sessionStep now d (LoopEvent.control ControlMessage.LlmFinished)).d.last_activity
          = now)
    ∧ (∀ now d b, (sessionStep now d (LoopEvent.wsBinary b)).d.last_activity
        = d.last_activity)
    ∧ (∀ now d, (sessionStep now d (LoopEvent.stt SttEvent.NoSpeech)).d.last_activity
        = d.last_activity)
    ∧ (∀ d events, (∀ e ∈ events, ∃ t b, e = (t, LoopEvent.wsBinary b)) →
        (runLoop d events).1.last_activity = d.last_activity) := by
  have hbin : ∀ now d b, sessionStep now d (LoopEvent.wsBinary b)
      = (sessionStep now d (LoopEvent.wsBinary b))
    := fun _ _ _ => rfl
  refine ⟨?_, ?_, ?_, ?_, ?_, ?_⟩
  · intro now d pm
    cases pm with
    | none => simp [sessionStep, noEffect]
    | some cm =>
        simp only [sessionStep]
        rw [handleClientMessage_last_activity]
  · intro now d s; simp [sessionStep, noEffect]
  · intro now d; simp [sessionStep, noEffect]
  · intro now d b
    simp only [sessionStep]
    split <;> (try split) <;> simp [noEffect]
  · intro now d
    simp only [sessionStep]
    split <;> simp [noEffect]
  · intro d events
    induction events generalizing d with
    | nil => intro _; simp [runLoop]
    | cons e rest ih =>
        intro hall
        obtain ⟨t, b, rfl⟩ := hall e (List.mem_cons_self e rest)
        rw [runLoop]
        have hcont : (sessionStep t d (LoopEvent.wsBinary b)).cont = true := by
          simp only [sessionStep]
          split <;> (try split) <;> simp [noEffect]
        have hact : (sessionStep t d (LoopEvent.wsBinary b)).d.last_activity
            = d.last_activity := by
          simp only [sessionStep]
          split <;> (try split) <;> simp [noEffect]
        simp only [hcont, if_true]
        rcases hr : runLoop (sessionStep t d (LoopEvent.wsBinary b)).d rest with ⟨d2, cs, ended⟩
        have := ih (sessionStep t d (LoopEvent.wsBinary b)).d
          (fun e he => hall e (List.mem_cons_of_mem _ he))
        rw [hr] at this
        simp only at this ⊢
        rw [this, hact]

theorem last_activity_refresh_policy_witness :
    (runLoop (initSession 7) [(50, LoopEvent.wsBinary (some [1, 2]))]).1.last_activity = 7 := by
  have h := last_activity_refresh_policy.2.2.2.2.2 (initSession 7)
    [(50, LoopEvent.wsBinary (some [1, 2]))]
    (fun e he => by
      rcases List.mem_singleton.mp he with rfl
      exact ⟨50, some [1, 2], rfl⟩)
  simpa using h

/-- C7: when the idle timer fires with the session not Processing and the
standby flag clear, the loop marks standby and spawns the standby utterance
exactly once — a second timer event is a no-op — and the spawned task plays
the configured standby prompt (`Tts start`, `sentence_start` with the prompt,
frames, `Tts stop`) and then signals `Sleep`, whose handler sends `Close` to
the device and terminates the loop. -/
theorem idle_timer_standby_once_then_sleep (now now2 now3 : Nat) (d d2 : SessionData)
    (tts : String → Option String → Except String (List Frame)) (prompt : String)
    (hstandby : d.is_standby = false) (hproc : d.state_enum ≠ SessionStateEnum.Processing) :
    (sessionStep now d LoopEvent.timer).standbySpawn = true
    ∧ (sessionStep now d LoopEvent.timer).d.is_standby = true
    ∧ (sessionStep now d LoopEvent.timer).out = []
    ∧ sessionStep now2 (sessionStep now d LoopEvent.timer).d LoopEvent.timer
        = noEffect (sessionStep now d LoopEvent.timer).d
    ∧ (∃ bins, (standbyTask tts prompt).1
        = [OutMessage.text (ServerMessage.Tts "start" none),
           OutMessage.text (ServerMessage.Tts "sentence_start" (some prompt))]
          ++ bins ++ [OutMessage.text (ServerMessage.Tts "stop" none)])
    ∧ (standbyTask tts prompt).2 = ControlMessage.Sleep
    ∧ (sessionStep now3 d2 (LoopEvent.control ControlMessage.Sleep)).out = [OutMessage.close]
    ∧ (sessionStep now3 d2 (LoopEvent.control ControlMessage.Sleep)).cont = false := by
  have hfire : sessionStep now d LoopEvent.timer
      = { noEffect { d with is_standby := true } with standbySpawn := true } := by
    simp only [sessionStep]
    rw [if_pos]
    exact ⟨by simp [hstandby], hproc⟩
  refine ⟨by simp [hfire, noEffect], by simp [hfire, noEffect], by simp [hfire, noEffect],
    ?_, ?_, rfl, by simp [sessionStep], ?_⟩
  · rw [hfire]
    exact timer_noop_when_standby now2 _ rfl
  · unfold standbyTask trigger_tts_only
    rcases tts prompt none with e | fs
    · exact ⟨[], rfl⟩
    · exact ⟨fs.map OutMessage.binary, rfl⟩
  · simp [sessionStep, noEffect]

theorem idle_timer_standby_once_then_sleep_witness :
    (sessionStep 10 (initSession 0) LoopEvent.timer).standbySpawn = true :=
  (idle_timer_standby_once_then_sleep 10 11 12 (initSession 0) (initSession 0)
    (fun _ _ => Except.ok []) "still there?" rfl (by decide)).1

/-- C10: a `Listen{state:stop}` received in Listening state with an empty
accumulated transcript still moves the session to Processing but hands
nothing to the Turn Processor (so no `LlmFinished` can arise from this
transition) and emits nothing; in Processing the idle-timer arm is computed
as far future (24 h) and a timer event is a no-op, so the idle timeout is
suspended until some later event changes the state. -/
theorem listen_stop_empty_transcript_silent_processing (now now2 : Nat) (d : SessionData)
    (sid : String) (maxIdle : Nat)
    (_hstate : d.state_enum = SessionStateEnum.Listening)
    (hacc : d.accumulated_text = "") :
    (sessionStep now d (LoopEvent.wsText (some (ClientMessage.Listen sid "stop" none none)))).d.state_enum
        = SessionStateEnum.Processing
    ∧ (sessionStep now d (LoopEvent.wsText (some (ClientMessage.Listen sid "stop" none none)))).toLlm
        = []
    ∧ (sessionStep now d (LoopEvent.wsText (some (ClientMessage.Listen sid "stop" none none)))).out
        = []
    ∧ (sessionStep now d (LoopEvent.wsText (some (ClientMessage.Listen sid "stop" none none)))).cont
        = true
    ∧ sleepDuration now2
        (sessionStep now d (LoopEvent.wsText (some (ClientMessage.Listen sid "stop" none none)))).d
        maxIdle = 1000 * (3600 * 24)
    ∧ sessionStep now2
        (sessionStep now d (LoopEvent.wsText (some (ClientMessage.Listen sid "stop" none none)))).d
        LoopEvent.timer
      = noEffect
          (sessionStep now d (LoopEvent.wsText (some (ClientMessage.Listen sid "stop" none none)))).d := by
  have hstep : sessionStep now d (LoopEvent.wsText (some (ClientMessage.Listen sid "stop" none none)))
      = noEffect { d with last_activity := now, is_standby := false,
                          current_session_id := sid,
                          state_enum := SessionStateEnum.Processing } := by
    simp [sessionStep, handleClientMessage, hacc, strIsEmpty]
  rw [hstep]
  refine ⟨rfl, rfl, rfl, rfl, ?_, ?_⟩
  · simp [sleepDuration, noEffect]
  · exact timer_noop_when_processing now2 _ rfl

theorem listen_stop_empty_transcript_silent_processing_witness :
    (sessionStep 3 (initSession 0)
        (LoopEvent.wsText (some (ClientMessage.Listen "s" "stop" none none)))).d.state_enum
      = SessionStateEnum.Processing :=
  (listen_stop_empty_transcript_silent_processing 3 9 (initSession 0) "s" 30000 rfl rfl).1

/-! ## RPC correlation (C3)

Every step of the Session Loop affects the Tool-RPC Router state (the pending
map, the ghost insertion log, the id counter, and the delivered completions)
in one of four ways: it leaves pending and insertions alone, it completes one
pending id, it inserts the fresh id, or it fails the fresh id immediately. -/

theorem handleClientMessage_router (d : SessionData) (cm : ClientMessage) :
    ((handleClientMessage d cm).d.pending_mcp_requests = d.pending_mcp_requests
      ∧ (handleClientMessage d cm).d.inserted_ids = d.inserted_ids
      ∧ d.mcp_request_id_counter ≤ (handleClientMessage d cm).d.mcp_request_id_counter
      ∧ (handleClientMessage d cm).completions = [])
    ∨ (∃ i c, i ∈ d.pending_mcp_requests
      ∧ (handleClientMessage d cm).d.pending_mcp_requests = d.pending_mcp_requests.erase i
      ∧ (handleClientMessage d cm).d.inserted_ids = d.inserted_ids
      ∧ (handleClientMessage d cm).d.mcp_request_id_counter = d.mcp_request_id_counter
      ∧ (handleClientMessage d cm).completions = [(i, c)]) := by
  cases cm with
  | Hello v tr ap ft =>
      simp only [handleClientMessage]
      split <;> exact Or.inl ⟨rfl, rfl, by simp [noEffect], rfl⟩
  | Listen sid st mode txt =>
      simp only [handleClientMessage]
      (repeat' split) <;> exact Or.inl ⟨rfl, rfl, le_refl _, rfl⟩
  | Abort sid reason => exact Or.inl ⟨rfl, rfl, le_refl _, rfl⟩
  | Iot sid de st => exact Or.inl ⟨rfl, rfl, le_refl _, rfl⟩
  | Mcp payload sid =>
      simp only [handleClientMessage]
      rcases parseJsonRpcResponse payload with _ | response
      · exact Or.inl ⟨rfl, rfl, le_refl _, rfl⟩
      · simp only
        rcases response.id with _ | idv
        · exact Or.inl ⟨rfl, rfl, le_refl _, rfl⟩
        · simp only
          rcases idv.asI64 with _ | i
          · exact Or.inl ⟨rfl, rfl, le_refl _, rfl⟩
          · simp only
            split
            · rename_i hmem
              refine Or.inr ⟨i, _, ?_, rfl, rfl, rfl, rfl⟩
              simpa using hmem
            · split
              · exact Or.inl ⟨rfl, rfl, by simp [noEffect], rfl⟩
              · split
                · split
                  · split <;> exact Or.inl ⟨rfl, rfl, le_refl _, rfl⟩
                  · exact Or.inl ⟨rfl, rfl, le_refl _, rfl⟩
                · exact Or.inl ⟨rfl, rfl, le_refl _, rfl⟩

theorem sessionStep_router (now : Nat) (d : SessionData) (ev : LoopEvent) :
    ((sessionStep now d ev).d.pending_mcp_requests = d.pending_mcp_requests
      ∧ (sessionStep now d ev).d.inserted_ids = d.inserted_ids
      ∧ d.mcp_request_id_counter ≤ (sessionStep now d ev).d.mcp_request_id_counter
      ∧ (sessionStep now d ev).completions = [])
    ∨ (∃ i c, i ∈ d.pending_mcp_requests
      ∧ (sessionStep now d ev).d.pending_mcp_requests = d.pending_mcp_requests.erase i
      ∧ (sessionStep now d ev).d.inserted_ids = d.inserted_ids
      ∧ (sessionStep now d ev).d.mcp_request_id_counter = d.mcp_request_id_counter
      ∧ (sessionStep now d ev).completions = [(i, c)])
    ∨ ((sessionStep now d ev).d.pending_mcp_requests
          = d.mcp_request_id_counter :: d.pending_mcp_requests
      ∧ (sessionStep now d ev).d.inserted_ids = d.mcp_request_id_counter :: d.inserted_ids
      ∧ (sessionStep now d ev).d.mcp_request_id_counter = d.mcp_request_id_counter + 1
      ∧ (sessionStep now d ev).completions = [])
    ∨ ((sessionStep now d ev).d.pending_mcp_requests = d.pending_mcp_requests
      ∧ (sessionStep now d ev).d.inserted_ids = d.inserted_ids
      ∧ (sessionStep now d ev).d.mcp_request_id_counter = d.mcp_request_id_counter + 1
      ∧ (sessionStep now d ev).completions
          = [(d.mcp_request_id_counter, Completion.queueFull)]) := by
  cases ev with
  | wsText parsed =>
      rcases parsed with _ | cm
      · exact Or.inl ⟨rfl, rfl, le_refl _, rfl⟩
      · rcases handleClientMessage_router
          { d with last_activity := now, is_standby := false } cm with h | ⟨i, c, h⟩
        · exact Or.inl h
        · exact Or.inr (Or.inl ⟨i, c, h⟩)
  | wsBinary decoded =>
      simp only [sessionStep]
      (repeat' split) <;> exact Or.inl ⟨rfl, rfl, le_refl _, rfl⟩
  | wsPing => exact Or.inl ⟨rfl, rfl, le_refl _, rfl⟩
  | wsPong => exact Or.inl ⟨rfl, rfl, le_refl _, rfl⟩
  | wsClose => exact Or.inl ⟨rfl, rfl, le_refl _, rfl⟩
  | wsErr => exact Or.inl ⟨rfl, rfl, le_refl _, rfl⟩
  | stt e =>
      cases e with
      | Text s => exact Or.inl ⟨rfl, rfl, le_refl _, rfl⟩
      | NoSpeech =>
          simp only [sessionStep]
          split <;> exact Or.inl ⟨rfl, rfl, le_refl _, rfl⟩
  | control c =>
      cases c with
      | LlmFinished => exact Or.inl ⟨rfl, rfl, le_refl _, rfl⟩
      | Sleep => exact Or.inl ⟨rfl, rfl, le_refl _, rfl⟩
  | rpc call queueOk =>
      cases queueOk with
      | true => exact Or.inr (Or.inr (Or.inl ⟨rfl, rfl, rfl, rfl⟩))
      | false => exact Or.inr (Or.inr (Or.inr ⟨rfl, rfl, rfl, rfl⟩))
  | mcpEvent tools => exact Or.inl ⟨rfl, rfl, le_refl _, rfl⟩
  | streamEnd => exact Or.inl ⟨rfl, rfl, le_refl _, rfl⟩
  | timer =>
      simp only [sessionStep]
      split <;> exact Or.inl ⟨rfl, rfl, le_refl _, rfl⟩

theorem countFor_nil (i : Int) : countFor [] i = 0 := rfl

theorem countFor_append (l1 l2 : List (Int × Completion)) (i : Int) :
    countFor (l1 ++ l2) i = countFor l1 i + countFor l2 i := by
  simp [countFor, List.count_append]

theorem countFor_single (j : Int) (c : Completion) (i : Int) :
    countFor [(j, c)] i = if i = j then 1 else 0 := by
  simp only [countFor, List.map_cons, List.map_nil]
  by_cases h : i = j
  · subst h
    simp
  · have h2 : ¬ j = i := fun hh => h hh.symm
    simp [List.count_cons, h, h2]

theorem countFor_zero_of_bound (log : List (Int × Completion)) (c : Int)
    (hb : ∀ p ∈ log, p.1 < c) : countFor log c = 0 := by
  rw [countFor, List.count_eq_zero]
  intro hmem
  rcases List.mem_map.mp hmem with ⟨p, hp, hfst⟩
  exact absurd (hfst ▸ hb p hp) (lt_irrefl c)

theorem countFor_drain (pending : List Int) (i : Int) :
    countFor (pending.map (fun j => (j, Completion.dropped))) i = pending.count i := by
  unfold countFor
  rw [List.map_map]
  have hid : (Prod.fst ∘ fun j : Int => (j, Completion.dropped)) = id := rfl
  rw [hid, List.map_id]

/-- The Tool-RPC Router invariant tying the Session Loop state to the log of
waiter completions delivered so far: pending ids are distinct, every pending
id was inserted, all tracked ids are below the counter, a pending id has no
completion yet, an inserted id no longer pending has exactly one, and no id
ever has more than one. -/
structure RouterInv (d : SessionData) (log : List (Int × Completion)) : Prop where
  nodupP : d.pending_mcp_requests.Nodup
  subPI : ∀ i ∈ d.pending_mcp_requests, i ∈ d.inserted_ids
  boundI : ∀ i ∈ d.inserted_ids, i < d.mcp_request_id_counter
  boundL : ∀ p ∈ log, p.1 < d.mcp_request_id_counter
  pend0 : ∀ i ∈ d.pending_mcp_requests, countFor log i = 0
  done1 : ∀ i ∈ d.inserted_ids, i ∉ d.pending_mcp_requests → countFor log i = 1
  atMost1 : ∀ i, countFor log i ≤ 1

theorem routerInv_init (t : Nat) : RouterInv (initSession t) [] := by
  refine ⟨List.nodup_nil, ?_, ?_, ?_, ?_, ?_, ?_⟩ <;> simp [initSession, countFor]

theorem routerInv_noChange (d d2 : SessionData) (log : List (Int × Completion))
    (hinv : RouterInv d log)
    (hp : d2.pending_mcp_requests = d.pending_mcp_requests)
    (hi : d2.inserted_ids = d.inserted_ids)
    (hc : d.mcp_request_id_counter ≤ d2.mcp_request_id_counter) :
    RouterInv d2 log := by
  refine ⟨?_, ?_, ?_, ?_, ?_, ?_, hinv.atMost1⟩
  · rw [hp]
    exact hinv.nodupP
  · rw [hp, hi]
    exact hinv.subPI
  · rw [hi]
    exact fun j hj => lt_of_lt_of_le (hinv.boundI j hj) hc
  · exact fun p hp2 => lt_of_lt_of_le (hinv.boundL p hp2) hc
  · rw [hp]
    exact hinv.pend0
  · rw [hp, hi]
    exact hinv.done1

theorem routerInv_complete (d d2 : SessionData) (log : List (Int × Completion))
    (hinv : RouterInv d log) (i : Int) (c : Completion)
    (himem : i ∈ d.pending_mcp_requests)
    (hp : d2.pending_mcp_requests = d.pending_mcp_requests.erase i)
    (hi : d2.inserted_ids = d.inserted_ids)
    (hc : d2.mcp_request_id_counter = d.mcp_request_id_counter) :
    RouterInv d2 (log ++ [(i, c)]) := by
  refine ⟨?_, ?_, ?_, ?_, ?_, ?_, ?_⟩
  · rw [hp]
    exact hinv.nodupP.erase i
  · intro j hj
    rw [hp] at hj
    rw [hi]
    exact hinv.subPI j (List.mem_of_mem_erase hj)
  · intro j hj
    rw [hi] at hj
    rw [hc]
    exact hinv.boundI j hj
  · intro p hp2
    rw [hc]
    rcases List.mem_append.mp hp2 with h | h
    · exact hinv.boundL p h
    · rcases List.mem_singleton.mp h with rfl
      exact hinv.boundI i (hinv.subPI i himem)
  · intro j hj
    rw [hp] at hj
    have hji : j ≠ i := ((List.Nodup.mem_erase_iff hinv.nodupP).mp hj).1
    have hjp : j ∈ d.pending_mcp_requests := List.mem_of_mem_erase hj
    rw [countFor_append, hinv.pend0 j hjp, countFor_single]
    simp [hji]
  · intro j hj hnj
    rw [hi] at hj
    rw [hp] at hnj
    rw [countFor_append, countFor_single]
    by_cases hji : j = i
    · subst hji
      rw [hinv.pend0 j himem]
      simp
    · have hjp : j ∉ d.pending_mcp_requests := by
        intro hmem
        exact hnj ((List.Nodup.mem_erase_iff hinv.nodupP).mpr ⟨hji, hmem⟩)
      rw [hinv.done1 j hj hjp]
      simp [hji]
  · intro j
    rw [countFor_append, countFor_single]
    by_cases hji : j = i
    · subst hji
      rw [hinv.pend0 j himem]
      simp
    · have := hinv.atMost1 j
      simp only [hji, if_false]
      omega

theorem routerInv_insert (d d2 : SessionData) (log : List (Int × Completion))
    (hinv : RouterInv d log)
    (hp : d2.pending_mcp_requests = d.mcp_request_id_counter :: d.pending_mcp_requests)
    (hi : d2.inserted_ids = d.mcp_request_id_counter :: d.inserted_ids)
    (hc : d2.mcp_request_id_counter = d.mcp_request_id_counter + 1) :
    RouterInv d2 log := by
  have hfresh : d.mcp_request_id_counter ∉ d.inserted_ids := by
    intro hmem
    exact absurd (hinv.boundI _ hmem) (lt_irrefl _)
  have hfreshP : d.mcp_request_id_counter ∉ d.pending_mcp_requests :=
    fun hmem => hfresh (hinv.subPI _ hmem)
  refine ⟨?_, ?_, ?_, ?_, ?_, ?_, hinv.atMost1⟩
  · rw [hp]
    exact List.nodup_cons.mpr ⟨hfreshP, hinv.nodupP⟩
  · intro j hj
    rw [hp] at hj
    rw [hi]
    rcases List.mem_cons.mp hj with rfl | hj
    · exact List.mem_cons_self _ _
    · exact List.mem_cons_of_mem _ (hinv.subPI j hj)
  · intro j hj
    rw [hi] at hj
    rw [hc]
    rcases List.mem_cons.mp hj with rfl | hj
    · omega
    · have := hinv.boundI j hj
      omega
  · intro p hp2
    rw [hc]
    have := hinv.boundL p hp2
    omega
  · intro j hj
    rw [hp] at hj
    rcases List.mem_cons.mp hj with rfl | hj
    · exact countFor_zero_of_bound log _ hinv.boundL
    · exact hinv.pend0 j hj
  · intro j hj hnj
    rw [hi] at hj
    rw [hp] at hnj
    rcases List.mem_cons.mp hj with rfl | hj
    · exact absurd (List.mem_cons_self _ _) hnj
    · exact hinv.done1 j hj (fun hmem => hnj (List.mem_cons_of_mem _ hmem))

theorem routerInv_queueFull (d d2 : SessionData) (log : List (Int × Completion))
    (hinv : RouterInv d log)
    (hp : d2.pending_mcp_requests = d.pending_mcp_requests)
    (hi : d2.inserted_ids = d.inserted_ids)
    (hc : d2.mcp_request_id_counter = d.mcp_request_id_counter + 1) :
    RouterInv d2 (log ++ [(d.mcp_request_id_counter, Completion.queueFull)]) := by
  have hfreshL : countFor log d.mcp_request_id_counter = 0 :=
    countFor_zero_of_bound log _ hinv.boundL
  refine ⟨?_, ?_, ?_, ?_, ?_, ?_, ?_⟩
  · rw [hp]
    exact hinv.nodupP
  · intro j hj
    rw [hp] at hj
    rw [hi]
    exact hinv.subPI j hj
  · intro j hj
    rw [hi] at hj
    rw [hc]
    have := hinv.boundI j hj
    omega
  · intro p hp2
    rw [hc]
    rcases List.mem_append.mp hp2 with h | h
    · have := hinv.boundL p h
      omega
    · rcases List.mem_singleton.mp h with rfl
      omega
  · intro j hj
    rw [hp] at hj
    have hji : j ≠ d.mcp_request_id_counter := by
      have := hinv.boundI j (hinv.subPI j hj)
      omega
    rw [countFor_append, hinv.pend0 j hj, countFor_single]
    simp [hji]
  · intro j hj hnj
    rw [hi] at hj
    rw [hp] at hnj
    have hji : j ≠ d.mcp_request_id_counter := by
      have := hinv.boundI j hj
      omega
    rw [countFor_append, hinv.done1 j hj hnj, countFor_single]
    simp [hji]
  · intro j
    rw [countFor_append, countFor_single]
    by_cases hji : j = d.mcp_request_id_counter
    · subst hji
      rw [hfreshL]
      simp
    · have := hinv.atMost1 j
      simp only [hji, if_false]
      omega

theorem routerInv_step (now : Nat) (d : SessionData) (ev : LoopEvent)
    (log : List (Int × Completion)) (hinv : RouterInv d log) :
    RouterInv (sessionStep now d ev).d (log ++ (sessionStep now d ev).completions) := by
  rcases sessionStep_router now d ev with
    ⟨hp, hi, hc, hcomp⟩ | ⟨i, c, himem, hp, hi, hc, hcomp⟩ |
    ⟨hp, hi, hc, hcomp⟩ | ⟨hp, hi, hc, hcomp⟩
  · rw [hcomp, List.append_nil]
    exact routerInv_noChange d _ log hinv hp hi hc
  · rw [hcomp]
    exact routerInv_complete d _ log hinv i c himem hp hi hc
  · rw [hcomp, List.append_nil]
    exact routerInv_insert d _ log hinv hp hi hc
  · rw [hcomp]
    exact routerInv_queueFull d _ log hinv hp hi hc

theorem routerInv_drain (d : SessionData) (log : List (Int × Completion))
    (hinv : RouterInv d log) :
    (∀ i, countFor (log ++ d.pending_mcp_requests.map (fun j => (j, Completion.dropped))) i ≤ 1)
    ∧ (∀ i ∈ d.inserted_ids,
        countFor (log ++ d.pending_mcp_requests.map (fun j => (j, Completion.dropped))) i
          = 1) := by
  constructor
  · intro i
    rw [countFor_append, countFor_drain]
    by_cases hmem : i ∈ d.pending_mcp_requests
    · rw [hinv.pend0 i hmem, List.count_eq_one_of_mem hinv.nodupP hmem]
    · rw [List.count_eq_zero_of_not_mem hmem]
      have := hinv.atMost1 i
      omega
  · intro i hi
    rw [countFor_append, countFor_drain]
    by_cases hmem : i ∈ d.pending_mcp_requests
    · rw [hinv.pend0 i hmem, List.count_eq_one_of_mem hinv.nodupP hmem]
    · rw [List.count_eq_zero_of_not_mem hmem, hinv.done1 i hi hmem]

theorem runLoop_completions (events : List (Nat × LoopEvent)) :
    ∀ (d : SessionData) (log : List (Int × Completion)), RouterInv d log →
      (∀ i, countFor (log ++ (runLoop d events).2.1) i ≤ 1)
      ∧ ((runLoop d events).2.2 = true →
          ∀ i ∈ (runLoop d events).1.inserted_ids,
            countFor (log ++ (runLoop d events).2.1) i = 1)
      ∧ ((runLoop d events).2.2 = false →
          RouterInv (runLoop d events).1 (log ++ (runLoop d events).2.1)) := by
  induction events with
  | nil =>
      intro d log hinv
      refine ⟨?_, ?_, ?_⟩
      · intro i
        simpa [runLoop] using hinv.atMost1 i
      · intro hended
        simp [runLoop] at hended
      · intro _
        simpa [runLoop] using hinv
  | cons e rest ih =>
      intro d log hinv
      rcases e with ⟨now, ev⟩
      have hinv2 := routerInv_step now d ev log hinv
      rw [runLoop]
      simp only
      by_cases hcont : (sessionStep now d ev).cont = true
      · rw [if_pos hcont]
        rcases hr : runLoop (sessionStep now d ev).d rest with ⟨d2, cs, ended⟩
        have hrec := ih (sessionStep now d ev).d (log ++ (sessionStep now d ev).completions)
          hinv2
        rw [hr] at hrec
        simp only at hrec ⊢
        refine ⟨?_, ?_, ?_⟩
        · intro i
          have := hrec.1 i
          rwa [List.append_assoc] at this
        · intro hended i hi
          have := hrec.2.1 hended i hi
          rwa [List.append_assoc] at this
        · intro hended
          have := hrec.2.2 hended
          rwa [List.append_assoc] at this
      · rw [if_neg hcont]
        have hdrain := routerInv_drain (sessionStep now d ev).d
          (log ++ (sessionStep now d ev).completions) hinv2
        refine ⟨?_, ?_, ?_⟩
        · intro i
          have := hdrain.1 i
          rwa [List.append_assoc] at this
        · intro _ i hi
          have := hdrain.2 i hi
          rwa [List.append_assoc] at this
        · intro hended
          simp at hended

/-- C3: over any timed event trace of a session, every waiter is completed at
most once, and when the session ends, every RPC id that was ever inserted into
the pending map has been completed exactly once — by the matching inbound
response while the loop ran, or by the teardown error delivered when the
pending map is dropped — so no waiter is completed twice and none hangs. -/
theorem pending_rpc_completed_exactly_once (t : Nat) (events : List (Nat × LoopEvent)) :
    (∀ i, countFor (runLoop (initSession t) events).2.1 i ≤ 1)
    ∧ ((runLoop (initSession t) events).2.2 = true →
        ∀ i ∈ (runLoop (initSession t) events).1.inserted_ids,
          countFor (runLoop (initSession t) events).2.1 i = 1) := by
  have h := runLoop_completions events (initSession t) [] (routerInv_init t)
  refine ⟨fun i => ?_, fun hended i hi => ?_⟩
  · simpa using h.1 i
  · simpa using h.2.1 hended i hi

theorem pending_rpc_completed_exactly_once_witness :
    countFor (runLoop (initSession 0)
        [(0, LoopEvent.rpc { method := "tools/call", params := JValue.null } true),
         (1, LoopEvent.streamEnd)]).2.1 1 = 1 := by
  have h := pending_rpc_completed_exactly_once 0
    [(0, LoopEvent.rpc { method := "tools/call", params := JValue.null } true),
     (1, LoopEvent.streamEnd)]
  exact h.2 rfl 1 (by decide)

end Xiaozhi
